import Mathlib

/-!
Verification of the emoji font-subsetting pipeline of
`figma-emoji-svg-converter`.

A JavaScript string is modelled as a list of UTF-16 code units
(natural numbers below 2^16); bytes of binary data are modelled as
lists of naturals.  Pure functions of the repository are translated
into Lean functions; the external font libraries (fontkit,
fonteditor-core, wawoff2, lru-cache) are modelled abstractly: the
parsed font is a structure of lookup functions, and the
subset/compress steps are arbitrary pure functions bundled in a
`Toolchain` record.
-/

set_option maxRecDepth 2000

namespace EmojiSvc

/-! ## Code-point decoding (scripts/emoji-worker.mjs and
    src/app/api/convert-emoji-v2/route.ts) -/

/-- JavaScript `String.prototype.codePointAt` on a list of UTF-16 code
units: if the unit at `i` is a high surrogate and the unit at `i + 1`
is a low surrogate, the two combine into one scalar value; otherwise
the unit itself is returned (lone surrogates are passed through).
`none` corresponds to `undefined` (index out of range). -/
def jsCodePointAt (units : List Nat) (i : Nat) : Option Nat :=
  if h : i < units.length then
    if 0xD800 ≤ units[i] ∧ units[i] < 0xDC00 then
      if h2 : i + 1 < units.length then
        if 0xDC00 ≤ units[i+1] ∧ units[i+1] < 0xE000 then
          some (0x10000 + (units[i] - 0xD800) * 0x400 + (units[i+1] - 0xDC00))
        else some units[i]
      else some units[i]
    else some units[i]
  else none

/-- The manual extraction loop of `getGlyphIdsForEmoji` in
`scripts/emoji-worker.mjs` (lines 87-94):
`for (let i = 0; i < emoji.length; i++) { const cp = emoji.codePointAt(i);
codePoints.push(cp); if (cp > 0xffff) i++; }`.
The loop advances `i` by at least one per iteration, so `fuel =
units.length` always covers the whole string (the extra parameter only
makes the recursion structural). -/
def extractLoop (units : List Nat) : Nat → Nat → List Nat
  | 0, _ => []
  | fuel + 1, i =>
    if i < units.length then
      match jsCodePointAt units i with
      | none => []
      | some cp =>
        cp :: extractLoop units fuel (if 0xFFFF < cp then i + 2 else i + 1)
    else []

/-- Code-point extraction of the worker script: every code point is
pushed unconditionally. -/
def extractCodePoints (units : List Nat) : List Nat :=
  extractLoop units units.length 0

/-- The v2 route variant of the loop (route.ts lines 69-78): the
truthiness guard `if (cp)` drops a code point equal to `0` (and only
then skips no unit). -/
def extractLoopV2 (units : List Nat) : Nat → Nat → List Nat
  | 0, _ => []
  | fuel + 1, i =>
    if i < units.length then
      match jsCodePointAt units i with
      | none => []
      | some cp =>
        if cp ≠ 0 then
          cp :: extractLoopV2 units fuel (if 0xFFFF < cp then i + 2 else i + 1)
        else extractLoopV2 units fuel (i + 1)
    else []

/-- Code-point extraction of `getGlyphIdsForEmoji` in
`src/app/api/convert-emoji-v2/route.ts`. -/
def extractCodePointsV2 (units : List Nat) : List Nat :=
  extractLoopV2 units units.length 0

/-- The scalar values underlying `debugEmoji`'s
`Array.from(emoji).map((char) => char.codePointAt(0))`: the JavaScript
string iterator walks the units, combining a valid surrogate pair into
one code point and yielding any other unit (including a lone
surrogate) on its own. -/
def debugEmojiCodePoints : List Nat → List Nat
  | [] => []
  | u :: rest =>
    if 0xD800 ≤ u ∧ u < 0xDC00 then
      match rest with
      | v :: rest2 =>
        if 0xDC00 ≤ v ∧ v < 0xE000 then
          (0x10000 + (u - 0xD800) * 0x400 + (v - 0xDC00)) :: debugEmojiCodePoints rest2
        else u :: debugEmojiCodePoints (v :: rest2)
      | [] => [u]
    else u :: debugEmojiCodePoints rest

/-! ## UTF-16 encoding (for stating decoder correctness) -/

/-- A Unicode scalar value: in range and not a surrogate. -/
def IsScalarValue (cp : Nat) : Prop :=
  cp < 0x110000 ∧ (cp < 0xD800 ∨ 0xE000 ≤ cp)

instance (cp : Nat) : Decidable (IsScalarValue cp) := by
  unfold IsScalarValue; infer_instance

/-- UTF-16 encoding of one scalar value. -/
def utf16EncodeChar (cp : Nat) : List Nat :=
  if cp < 0x10000 then [cp]
  else [0xD800 + (cp - 0x10000) / 0x400, 0xDC00 + (cp - 0x10000) % 0x400]

/-- UTF-16 encoding of a sequence of scalar values. -/
def utf16Encode (cps : List Nat) : List Nat :=
  (cps.map utf16EncodeChar).flatten

/-! ## Glyph resolution (getGlyphIdsForEmoji, both variants) -/

/-- The parsed font, as the pipeline uses it through fontkit:
`cmap cp` is `font.glyphForCodePoint(cp).id` (`none` models the
exception caught by the surrounding `try`), `layout cps` is the glyph
ids of `font.layout(String.fromCodePoint(...cps)).glyphs` (`none`
models an exception or a missing run). -/
structure FontDocument where
  cmap : Nat → Option Nat
  layout : List Nat → Option (List Nat)

/-- Recoverable warnings emitted (as `console.warn`) during glyph
resolution. -/
inductive Warning where
  | glyphNotFound (cp : Nat)
  | layoutFailed
deriving DecidableEq

/-- `if (gid !== undefined && !glyphIds.includes(gid)) glyphIds.push(gid)`. -/
def pushUnique (gids : List Nat) (gid : Nat) : List Nat :=
  if gid ∈ gids then gids else gids ++ [gid]

/-- One step of the per-code-point cmap loop (worker lines 97-110,
route.ts lines 81-94): a hit is pushed (deduplicated), a miss adds a
`GlyphNotFound` warning and is skipped. -/
def cmapLookupStep (font : FontDocument) (acc : List Nat × List Warning)
    (cp : Nat) : List Nat × List Warning :=
  match font.cmap cp with
  | some gid => (pushUnique acc.1 gid, acc.2)
  | none => (acc.1, acc.2 ++ [Warning.glyphNotFound cp])

/-- The joined-sequence shaping step (worker lines 112-130, route.ts
lines 96-116): run only when more than one code point was decoded;
every glyph of the layout run is pushed (deduplicated); an exception
is a recoverable warning. -/
def layoutStep (font : FontDocument) (cps : List Nat)
    (acc : List Nat × List Warning) : List Nat × List Warning :=
  if 1 < cps.length then
    match font.layout cps with
    | some gs => (gs.foldl pushUnique acc.1, acc.2)
    | none => (acc.1, acc.2 ++ [Warning.layoutFailed])
  else acc

/-- Result of glyph resolution: the deduplicated glyph-id list, the
decoded code points, and the recoverable warnings. -/
structure ResolveResult where
  glyphIds : List Nat
  codePoints : List Nat
  warnings : List Warning
deriving DecidableEq

/-- The shared body of both `getGlyphIdsForEmoji` variants, after
code-point extraction. -/
def getGlyphIdsFrom (font : FontDocument) (cps : List Nat) : ResolveResult :=
  let acc := cps.foldl (cmapLookupStep font) ([], [])
  let acc := layoutStep font cps acc
  { glyphIds := acc.1, codePoints := cps, warnings := acc.2 }

/-- `getGlyphIdsForEmoji` of `scripts/emoji-worker.mjs`. -/
def getGlyphIdsForEmoji (font : FontDocument) (units : List Nat) : ResolveResult :=
  getGlyphIdsFrom font (extractCodePoints units)

/-- `getGlyphIdsForEmoji` of `src/app/api/convert-emoji-v2/route.ts`
(identical except for the `if (cp)` guard in code-point extraction). -/
def getGlyphIdsForEmojiV2 (font : FontDocument) (units : List Nat) : ResolveResult :=
  getGlyphIdsFrom font (extractCodePointsV2 units)

/-! ## The subsetting pipeline -/

/-- The external pure stages: fontkit parsing, fonteditor-core
`Font.create` + `optimize` + `write` (as a function of the font bytes
and the glyph-id list), and wawoff2 `compress`.  They are modelled as
arbitrary functions: the repository passes fixed option objects and
never varies them. -/
structure Toolchain where
  parse : List Nat → FontDocument
  subsetWrite : List Nat → List Nat → List Nat
  compress : List Nat → List Nat

/-- Ambient state the pipeline reads: `Date.now()` and
`process.env.NODE_ENV === "development"`. -/
structure Env where
  now : Nat
  isDev : Bool

/-- First four bytes of a WOFF2 file: ASCII `wOF2`, hex `774f4632`. -/
def woff2Signature : List Nat := [0x77, 0x4f, 0x46, 0x32]

/-- What the worker process computes (scripts/emoji-worker.mjs,
`processEmoji`): resolve glyphs, subset, write TTF, compress to WOFF2,
record the signature check (which is only logged, never enforced
here), and exit 0.  File-system side effects are modelled by the
`Date.now`-derived path components. -/
structure WorkerResult where
  woff2 : List Nat
  ttf : List Nat
  glyphIds : List Nat
  codePoints : List Nat
  warnings : List Warning
  isValidWOFF2 : Bool
  debugLogStamp : Nat
  exitCode : Nat
deriving DecidableEq

/-- `processEmoji` of `scripts/emoji-worker.mjs` (success path; the
font file is assumed present, matching the claims' quantification over
(font, emoji) inputs). -/
def processEmoji (tc : Toolchain) (env : Env) (fontData : List Nat)
    (units : List Nat) : WorkerResult :=
  let font := tc.parse fontData
  let r := getGlyphIdsForEmoji font units
  let ttf := tc.subsetWrite fontData r.glyphIds
  let woff2 := tc.compress ttf
  { woff2 := woff2
    ttf := ttf
    glyphIds := r.glyphIds
    codePoints := r.codePoints
    warnings := r.warnings
    isValidWOFF2 := decide (4 ≤ woff2.length ∧ woff2.take 4 = woff2Signature)
    debugLogStamp := env.now
    exitCode := 0 }

/-- What `createEmojiSubset` of the v2 route returns (the base64
payload is modelled by the WOFF2 bytes themselves), plus the
environment-dependent temporary path it uses in development mode. -/
structure SubsetResult where
  base64 : List Nat
  glyphIds : List Nat
  codePoints : List Nat
  tempStamp : Option Nat
deriving DecidableEq

/-- `createEmojiSubset` of `src/app/api/convert-emoji-v2/route.ts`:
the only use of the ambient environment on the success path is the
`Date.now()`-named temporary file in development mode. -/
def createEmojiSubset (tc : Toolchain) (env : Env) (fontData : List Nat)
    (units : List Nat) : SubsetResult :=
  let outputStamp : Option Nat := if env.isDev then some env.now else none
  let font := tc.parse fontData
  let r := getGlyphIdsForEmojiV2 font units
  let ttf := tc.subsetWrite fontData r.glyphIds
  let woff2 := tc.compress ttf
  { base64 := woff2
    glyphIds := r.glyphIds
    codePoints := r.codePoints
    tempStamp := outputStamp }

/-- Errors of the `convert-emoji` route handler and its worker
wrapper. -/
inductive RouteError where
  | emojiRequired
  | workerExit (code : Nat)
  | tooSmall
  | notValidWOFF2
deriving DecidableEq

/-- The validation `runWorkerScript` (src/app/api/convert-emoji
route.ts, lines 131-184) applies to the worker's output file: nonzero
exit code is rejected, a file shorter than 4 bytes is rejected, a file
whose first four bytes are not the WOFF2 signature is rejected;
otherwise the bytes are returned (base64-encoded in the source). -/
def runWorkerScript (tc : Toolchain) (env : Env) (fontData : List Nat)
    (units : List Nat) : Except RouteError (List Nat) :=
  if (processEmoji tc env fontData units).exitCode ≠ 0 then
    .error (.workerExit (processEmoji tc env fontData units).exitCode)
  else if (processEmoji tc env fontData units).woff2.length < 4 then
    .error .tooSmall
  else if (processEmoji tc env fontData units).woff2.take 4 = woff2Signature then
    .ok (processEmoji tc env fontData units).woff2
  else .error .notValidWOFF2

/-- The `if (!emoji)` guard of the route handlers' `POST`: only the
empty string is rejected (HTTP 400, "Emoji is required"). -/
def postValidateEmoji (units : List Nat) : Except RouteError Unit :=
  if units = [] then .error .emojiRequired else .ok ()

/-! ## Glyph closure -/

/-- One closure step: a glyph set together with every component glyph
referenced by one of its members. -/
def closureStep (comp : Nat → Finset Nat) (s : Finset Nat) : Finset Nat :=
  s ∪ s.biUnion comp

/-- Modelled from the spec: the Glyph Closure Engine (spec section
4.3).  The repository delegates subsetting to the external
`fonteditor-core` package (`fontObject.optimize({subset: glyphIds, ...})`,
worker lines 180-195 and route.ts lines 180-199), so the closure code
itself is not under src/; following the spec, the seed glyph set is
grown by fixed-point iteration of component-reference expansion, with
`N` the font's glyph count bounding every glyph id.  `N + 1` rounds of
the monotone step always reach the fixed point on sets drawn from
`Finset.range N`. -/
def closeGlyphs (comp : Nat → Finset Nat) (N : Nat) (seed : Finset Nat) : Finset Nat :=
  (closureStep comp)^[N + 1] seed

/-! ## Result cache -/

/-- Modelled from the spec: the Result Cache (spec section 4.6).  The
repository constructs `new LRUCache({ max: 5, ttl: 1000*60*60*6 })`
from the external `lru-cache` package (convert-emoji-v2/route.ts lines
42-45); the eviction logic is not under src/.  Entries are kept
most-recently-used first, each carrying the clock value of the `set`
that created it (the ttl is measured from `set`, not refreshed by
`get`). -/
structure LRUCache (K : Type) (V : Type) where
  max : Nat
  ttl : Nat
  entries : List (K × V × Nat)

/-- `cache.set(key, value)` at clock `now`: the key moves to the
most-recent position with a fresh timestamp; if the capacity is
exceeded, the least-recently-used entry (the last) is dropped. -/
def LRUCache.set {K V : Type} [DecidableEq K] (c : LRUCache K V) (k : K)
    (v : V) (now : Nat) : LRUCache K V :=
  { c with
    entries := ((k, v, now) :: c.entries.filter (fun e => decide (e.1 ≠ k))).take c.max }

/-- `cache.get(key)` at clock `now`: a hit whose age exceeds the ttl
is stale — deleted and reported as a miss; a fresh hit is moved to the
most-recent position, keeping its original timestamp. -/
def LRUCache.get {K V : Type} [DecidableEq K] (c : LRUCache K V) (k : K)
    (now : Nat) : Option V × LRUCache K V :=
  match c.entries.find? (fun e => decide (e.1 = k)) with
  | none => (none, c)
  | some (_, v, start) =>
    if c.ttl < now - start then
      (none, { c with entries := c.entries.filter (fun e => decide (e.1 ≠ k)) })
    else
      (some v, { c with
        entries := (k, v, start) :: c.entries.filter (fun e => decide (e.1 ≠ k)) })

/-- The cache as configured in `src/app/api/convert-emoji-v2/route.ts`:
at most 5 entries, 6-hour (21600000 ms) time-to-live, keyed by the
emoji string, holding the base64 font payload. -/
def emojiSubsetCache : LRUCache (List Nat) (List Nat) :=
  { max := 5, ttl := 1000 * 60 * 60 * 6, entries := [] }

/-! ## Concrete fixtures used by counterexamples and witnesses -/

/-- A toolchain whose parsed font resolves nothing: every cmap lookup
throws and shaping throws.  Subsetting passes the font bytes through
and compression is the identity, so the produced binary is directly
visible. -/
def emptyFontToolchain : Toolchain :=
  { parse := fun _ => { cmap := fun _ => none, layout := fun _ => none }
    subsetWrite := fun fontData _ => fontData
    compress := fun b => b }

/-- A toolchain whose compressor always emits a five-byte file with a
valid WOFF2 signature. -/
def validSigToolchain : Toolchain :=
  { parse := fun _ => { cmap := fun _ => some 1, layout := fun _ => none }
    subsetWrite := fun _ _ => []
    compress := fun _ => [0x77, 0x4f, 0x46, 0x32, 0x09] }

/-- A font mapping U+1F600 to glyph 1 and nothing else, with no
shaping. -/
def smileyFont : FontDocument :=
  { cmap := fun cp => if cp = 0x1F600 then some 1 else none
    layout := fun _ => none }

/-- Component references for the closure witness: glyph 1 is a
composite referencing glyph 2; other glyphs are simple. -/
def witnessComponents (g : Nat) : Finset Nat :=
  if g = 1 then {2} else ∅

/-- A font with an empty cmap whose shaping of any multi-code-point
sequence yields glyph 5 (the witness for warnings being recoverable). -/
def layoutOnlyFont : FontDocument :=
  { cmap := fun _ => none
    layout := fun _ => some [5] }

/-! ## Decoder lemmas -/

/-- A decoded code point is either a unit of the string or a
surrogate-pair combination (which is at least 0x10000). -/
theorem jsCodePointAt_mem_or_big {units : List Nat} {i cp : Nat}
    (h : jsCodePointAt units i = some cp) : cp ∈ units ∨ 0x10000 ≤ cp := by
  unfold jsCodePointAt at h
  split at h
  · rename_i hi
    split at h
    · split at h
      · split at h
        · injection h with h; subst h; right; omega
        · injection h with h; subst h; left; exact List.getElem_mem hi
      · injection h with h; subst h; left; exact List.getElem_mem hi
    · injection h with h; subst h; left; exact List.getElem_mem hi
  · cases h

/-- Unfolding: a unit that is not a high surrogate is yielded on its
own. -/
theorem debugEmojiCodePoints_cons_low {u : Nat} {rest : List Nat}
    (hs : ¬(0xD800 ≤ u ∧ u < 0xDC00)) :
    debugEmojiCodePoints (u :: rest) = u :: debugEmojiCodePoints rest := by
  cases rest with
  | nil => simp only [debugEmojiCodePoints, if_neg hs]
  | cons v rest2 => simp only [debugEmojiCodePoints, if_neg hs]

/-- Unfolding: a high surrogate followed by a low surrogate combines. -/
theorem debugEmojiCodePoints_pair {u v : Nat} {rest2 : List Nat}
    (hs : 0xD800 ≤ u ∧ u < 0xDC00) (hv : 0xDC00 ≤ v ∧ v < 0xE000) :
    debugEmojiCodePoints (u :: v :: rest2) =
      (0x10000 + (u - 0xD800) * 0x400 + (v - 0xDC00)) :: debugEmojiCodePoints rest2 := by
  simp only [debugEmojiCodePoints, if_pos hs, if_pos hv]

/-- Unfolding: a high surrogate not followed by a low surrogate is
yielded on its own. -/
theorem debugEmojiCodePoints_hs_nonlow {u v : Nat} {rest2 : List Nat}
    (hs : 0xD800 ≤ u ∧ u < 0xDC00) (hv : ¬(0xDC00 ≤ v ∧ v < 0xE000)) :
    debugEmojiCodePoints (u :: v :: rest2) = u :: debugEmojiCodePoints (v :: rest2) := by
  simp only [debugEmojiCodePoints, if_pos hs, if_neg hv]

/-- Unfolding: a trailing high surrogate is yielded on its own. -/
theorem debugEmojiCodePoints_single_hs {u : Nat}
    (hs : 0xD800 ≤ u ∧ u < 0xDC00) :
    debugEmojiCodePoints [u] = [u] := by
  simp only [debugEmojiCodePoints, if_pos hs]

/-- On a string of 16-bit units, the worker's index-based extraction
loop agrees with the string-iterator decoding from position `i`
onwards, as soon as the fuel covers the remaining units. -/
theorem extractLoop_eq_debug (units : List Nat)
    (hu : ∀ u ∈ units, u < 0x10000) :
    ∀ fuel i, units.length - i ≤ fuel →
      extractLoop units fuel i = debugEmojiCodePoints (units.drop i) := by
  intro fuel
  induction fuel with
  | zero =>
    intro i hle
    rw [List.drop_eq_nil_of_le (by omega)]
    rfl
  | succ fuel ih =>
    intro i hle
    by_cases h : i < units.length
    · have hd : units.drop i = units[i] :: units.drop (i + 1) :=
        List.drop_eq_getElem_cons h
      have hui : units[i] < 0x10000 := hu _ (List.getElem_mem h)
      simp only [extractLoop, if_pos h]
      by_cases hs : 0xD800 ≤ units[i] ∧ units[i] < 0xDC00
      · by_cases h2 : i + 1 < units.length
        · have hd2 : units.drop (i + 1) = units[i+1] :: units.drop (i + 2) :=
            List.drop_eq_getElem_cons h2
          by_cases hv : 0xDC00 ≤ units[i+1] ∧ units[i+1] < 0xE000
          · have hbig :
                0xFFFF < 0x10000 + (units[i] - 0xD800) * 0x400 + (units[i+1] - 0xDC00) := by
              omega
            simp only [jsCodePointAt, dif_pos h, if_pos hs, dif_pos h2, if_pos hv]
            rw [if_pos hbig, ih (i + 2) (by omega), hd, hd2,
              debugEmojiCodePoints_pair hs hv]
          · simp only [jsCodePointAt, dif_pos h, if_pos hs, dif_pos h2, if_neg hv]
            rw [if_neg (by omega), ih (i + 1) (by omega), hd, hd2,
              debugEmojiCodePoints_hs_nonlow hs hv]
        · have hnil : units.drop (i + 1) = [] :=
            List.drop_eq_nil_of_le (by omega)
          simp only [jsCodePointAt, dif_pos h, if_pos hs, dif_neg h2]
          rw [if_neg (by omega), ih (i + 1) (by omega), hd, hnil,
            debugEmojiCodePoints_single_hs hs]
          rfl
      · simp only [jsCodePointAt, dif_pos h, if_neg hs]
        rw [if_neg (by omega), ih (i + 1) (by omega), hd,
          debugEmojiCodePoints_cons_low hs]
    · simp only [extractLoop, if_neg h]
      rw [List.drop_eq_nil_of_le (by omega)]
      rfl

/-- On a string with no NUL (0) unit, the v2 extraction loop agrees
with the worker's. -/
theorem extractLoopV2_eq_extractLoop (units : List Nat)
    (h0 : ∀ u ∈ units, u ≠ 0) :
    ∀ fuel i, extractLoopV2 units fuel i = extractLoop units fuel i := by
  intro fuel
  induction fuel with
  | zero => intro i; rfl
  | succ fuel ih =>
    intro i
    simp only [extractLoopV2, extractLoop]
    by_cases h : i < units.length
    · rw [if_pos h, if_pos h]
      cases hcp : jsCodePointAt units i with
      | none => rfl
      | some cp =>
        have hne : cp ≠ 0 := by
          rcases jsCodePointAt_mem_or_big hcp with hm | hb
          · exact h0 _ hm
          · omega
        simp only [if_pos hne, ih]
    · rw [if_neg h, if_neg h]

/-- Every unit of the UTF-16 encoding of scalar values is a 16-bit
value. -/
theorem utf16Encode_units_lt {cps : List Nat}
    (h : ∀ cp ∈ cps, IsScalarValue cp) :
    ∀ u ∈ utf16Encode cps, u < 0x10000 := by
  intro u hu
  rw [utf16Encode] at hu
  simp only [List.mem_flatten, List.mem_map] at hu
  obtain ⟨l, ⟨cp, hcp, rfl⟩, hul⟩ := hu
  obtain ⟨h1, h2⟩ := h cp hcp
  rw [utf16EncodeChar] at hul
  split at hul
  · rename_i hlt
    simp only [List.mem_singleton] at hul
    omega
  · rename_i hge
    have hq : (cp - 0x10000) / 0x400 < 0x400 := Nat.div_lt_of_lt_mul (by omega)
    have hr : (cp - 0x10000) % 0x400 < 0x400 := Nat.mod_lt _ (by omega)
    simp only [List.mem_cons, List.not_mem_nil, or_false] at hul
    rcases hul with h3 | h3 <;> omega

/-- If no scalar value is NUL, no unit of the encoding is NUL. -/
theorem utf16Encode_units_ne_zero {cps : List Nat} (h0 : 0 ∉ cps) :
    ∀ u ∈ utf16Encode cps, u ≠ 0 := by
  intro u hu
  rw [utf16Encode] at hu
  simp only [List.mem_flatten, List.mem_map] at hu
  obtain ⟨l, ⟨cp, hcp, rfl⟩, hul⟩ := hu
  rw [utf16EncodeChar] at hul
  split at hul
  · simp only [List.mem_singleton] at hul
    subst hul
    exact fun hz => h0 (hz ▸ hcp)
  · simp only [List.mem_cons, List.not_mem_nil, or_false] at hul
    rcases hul with h3 | h3 <;> omega

/-- The string-iterator decoding inverts UTF-16 encoding on sequences
of scalar values. -/
theorem debug_decode_utf16 {cps : List Nat}
    (h : ∀ cp ∈ cps, IsScalarValue cp) :
    debugEmojiCodePoints (utf16Encode cps) = cps := by
  induction cps with
  | nil => rfl
  | cons cp rest ih =>
    obtain ⟨h1, h2⟩ := h cp (List.mem_cons_self cp rest)
    have hrest : ∀ c ∈ rest, IsScalarValue c := fun c hc => h c (List.mem_cons_of_mem _ hc)
    rw [utf16Encode] at *
    simp only [List.map_cons, List.flatten_cons]
    by_cases hlt : cp < 0x10000
    · rw [utf16EncodeChar, if_pos hlt]
      have hs : ¬(0xD800 ≤ cp ∧ cp < 0xDC00) := by omega
      rw [List.singleton_append, debugEmojiCodePoints_cons_low hs, ih hrest]
    · rw [utf16EncodeChar, if_neg hlt]
      have hq : (cp - 0x10000) / 0x400 < 0x400 := Nat.div_lt_of_lt_mul (by omega)
      have hr : (cp - 0x10000) % 0x400 < 0x400 := Nat.mod_lt _ (by omega)
      have hdm := Nat.div_add_mod (cp - 0x10000) 0x400
      have hs : 0xD800 ≤ 0xD800 + (cp - 0x10000) / 0x400 ∧
          0xD800 + (cp - 0x10000) / 0x400 < 0xDC00 := by omega
      have hv : 0xDC00 ≤ 0xDC00 + (cp - 0x10000) % 0x400 ∧
          0xDC00 + (cp - 0x10000) % 0x400 < 0xE000 := by omega
      rw [List.cons_append, List.cons_append, List.nil_append,
        debugEmojiCodePoints_pair hs hv, ih hrest]
      simp only [List.cons.injEq]
      exact ⟨by omega, trivial⟩

/-- The worker's decoder inverts UTF-16 encoding on sequences of
scalar values. -/
theorem extractCodePoints_utf16 {cps : List Nat}
    (h : ∀ cp ∈ cps, IsScalarValue cp) :
    extractCodePoints (utf16Encode cps) = cps := by
  rw [extractCodePoints,
    extractLoop_eq_debug _ (utf16Encode_units_lt h) _ 0 (by omega),
    List.drop_zero, debug_decode_utf16 h]

/-! ## Resolution lemmas -/

/-- Membership after a deduplicating push. -/
theorem mem_pushUnique {l : List Nat} {g x : Nat} :
    x ∈ pushUnique l g ↔ x ∈ l ∨ x = g := by
  unfold pushUnique
  by_cases hg : g ∈ l
  · rw [if_pos hg]
    constructor
    · exact Or.inl
    · rintro (hx | rfl)
      · exact hx
      · exact hg
  · rw [if_neg hg]
    simp [List.mem_append]

/-- A deduplicating push preserves `Nodup`. -/
theorem pushUnique_nodup {l : List Nat} {g : Nat} (h : l.Nodup) :
    (pushUnique l g).Nodup := by
  unfold pushUnique
  by_cases hg : g ∈ l
  · rwa [if_pos hg]
  · rw [if_neg hg]
    simp [List.nodup_append, h, hg]

/-- Folding deduplicating pushes preserves `Nodup`. -/
theorem foldl_pushUnique_nodup (gs : List Nat) :
    ∀ acc : List Nat, acc.Nodup → (gs.foldl pushUnique acc).Nodup := by
  induction gs with
  | nil => intro acc h; exact h
  | cons g gs ih => intro acc h; exact ih _ (pushUnique_nodup h)

/-- Membership after folding deduplicating pushes. -/
theorem mem_foldl_pushUnique (gs : List Nat) :
    ∀ (acc : List Nat) (x : Nat),
      x ∈ gs.foldl pushUnique acc ↔ x ∈ acc ∨ x ∈ gs := by
  induction gs with
  | nil => intro acc x; simp
  | cons g gs ih =>
    intro acc x
    rw [List.foldl_cons, ih, mem_pushUnique, List.mem_cons]
    tauto

/-- The cmap loop keeps the glyph list duplicate-free. -/
theorem cmapFold_nodup (font : FontDocument) (cps : List Nat) :
    ∀ acc : List Nat × List Warning, acc.1.Nodup →
      ((cps.foldl (cmapLookupStep font) acc).1).Nodup := by
  induction cps with
  | nil => intro acc h; exact h
  | cons cp cps ih =>
    intro acc h
    rw [List.foldl_cons]
    apply ih
    cases hc : font.cmap cp with
    | some gid =>
      simp only [cmapLookupStep, hc]
      exact pushUnique_nodup h
    | none =>
      simp only [cmapLookupStep, hc]
      exact h

/-- The cmap loop only appends warnings. -/
theorem cmapFold_warn_mono (font : FontDocument) (cps : List Nat) :
    ∀ (acc : List Nat × List Warning) (w : Warning), w ∈ acc.2 →
      w ∈ (cps.foldl (cmapLookupStep font) acc).2 := by
  induction cps with
  | nil => intro acc w h; exact h
  | cons cp cps ih =>
    intro acc w h
    rw [List.foldl_cons]
    apply ih
    cases hc : font.cmap cp with
    | some gid => simpa only [cmapLookupStep, hc] using h
    | none =>
      simp only [cmapLookupStep, hc]
      exact List.mem_append_left _ h

/-- A cmap miss always leaves its `GlyphNotFound` warning in the
accumulated warning list. -/
theorem cmapFold_warn_of_miss (font : FontDocument) (cps : List Nat) :
    ∀ (acc : List Nat × List Warning) (cp : Nat), cp ∈ cps →
      font.cmap cp = none →
      Warning.glyphNotFound cp ∈ (cps.foldl (cmapLookupStep font) acc).2 := by
  induction cps with
  | nil => intro acc cp h; cases h
  | cons c cps ih =>
    intro acc cp hmem hmiss
    rw [List.foldl_cons]
    rcases List.mem_cons.mp hmem with rfl | hmem2
    · apply cmapFold_warn_mono
      simp only [cmapLookupStep, hmiss]
      exact List.mem_append_right _ (List.mem_singleton_self _)
    · exact ih _ _ hmem2 hmiss

/-- Every glyph produced by the cmap loop is an accumulator glyph or a
cmap hit. -/
theorem cmapFold_fst_mem (font : FontDocument) (cps : List Nat) :
    ∀ (acc : List Nat × List Warning) (x : Nat),
      x ∈ (cps.foldl (cmapLookupStep font) acc).1 →
      x ∈ acc.1 ∨ ∃ cp ∈ cps, font.cmap cp = some x := by
  induction cps with
  | nil => intro acc x h; exact Or.inl h
  | cons c cps ih =>
    intro acc x h
    rw [List.foldl_cons] at h
    rcases ih _ _ h with h1 | ⟨cp, hcp, hc⟩
    · cases hc2 : font.cmap c with
      | some gid =>
        simp only [cmapLookupStep, hc2] at h1
        rcases mem_pushUnique.mp h1 with hx | rfl
        · exact Or.inl hx
        · exact Or.inr ⟨c, List.mem_cons_self c cps, hc2⟩
      | none =>
        simp only [cmapLookupStep, hc2] at h1
        exact Or.inl h1
    · exact Or.inr ⟨cp, List.mem_cons_of_mem _ hcp, hc⟩

/-- The glyph-id list of a resolution result is duplicate-free. -/
theorem getGlyphIdsFrom_nodup (font : FontDocument) (cps : List Nat) :
    ((getGlyphIdsFrom font cps).glyphIds).Nodup := by
  have h1 : ((cps.foldl (cmapLookupStep font) ([], [])).1).Nodup :=
    cmapFold_nodup font cps ([], []) List.nodup_nil
  simp only [getGlyphIdsFrom, layoutStep]
  split
  · cases hl : font.layout cps with
    | some gs =>
      simp only [hl]
      exact foldl_pushUnique_nodup gs _ h1
    | none =>
      simp only [hl]
      exact h1
  · exact h1

/-- A cmap miss for a decoded code point leaves a `GlyphNotFound`
warning in the final resolution result. -/
theorem getGlyphIdsFrom_warn_of_miss (font : FontDocument) (cps : List Nat)
    (cp : Nat) (hmem : cp ∈ cps) (hmiss : font.cmap cp = none) :
    Warning.glyphNotFound cp ∈ (getGlyphIdsFrom font cps).warnings := by
  have h1 := cmapFold_warn_of_miss font cps ([], []) cp hmem hmiss
  simp only [getGlyphIdsFrom, layoutStep]
  split
  · cases hl : font.layout cps with
    | some gs => simpa only [hl] using h1
    | none =>
      simp only [hl]
      exact List.mem_append_left _ h1
  · exact h1

/-- When the shaping step runs and succeeds, each of its glyphs lands
in the final glyph list. -/
theorem getGlyphIdsFrom_layout_mem (font : FontDocument) (cps : List Nat)
    (hlen : 1 < cps.length) {gs : List Nat} (hl : font.layout cps = some gs)
    {g : Nat} (hg : g ∈ gs) :
    g ∈ (getGlyphIdsFrom font cps).glyphIds := by
  simp only [getGlyphIdsFrom, layoutStep, if_pos hlen, hl]
  exact (mem_foldl_pushUnique gs _ g).mpr (Or.inr hg)

/-- Every resolved glyph id is below the font's glyph count when both
lookup functions only return glyphs below it. -/
theorem getGlyphIdsFrom_bound (font : FontDocument) (N : Nat) (cps : List Nat)
    (hcmap : ∀ cp g, font.cmap cp = some g → g < N)
    (hlay : ∀ cs gs, font.layout cs = some gs → ∀ g ∈ gs, g < N) :
    ∀ g ∈ (getGlyphIdsFrom font cps).glyphIds, g < N := by
  have hbase : ∀ x ∈ (cps.foldl (cmapLookupStep font) ([], [])).1, x < N := by
    intro x hx
    rcases cmapFold_fst_mem font cps ([], []) x hx with h1 | ⟨cp, _, hc⟩
    · cases h1
    · exact hcmap _ _ hc
  intro g hg
  simp only [getGlyphIdsFrom, layoutStep] at hg
  split at hg
  · cases hl : font.layout cps with
    | some gs =>
      simp only [hl] at hg
      rcases (mem_foldl_pushUnique gs _ g).mp hg with h1 | h2
      · exact hbase _ h1
      · exact hlay _ _ hl _ h2
    | none =>
      simp only [hl] at hg
      exact hbase _ hg
  · exact hbase _ hg

/-! ## Closure lemmas -/

/-- The closure step grows the set. -/
theorem subset_closureStep (comp : Nat → Finset Nat) (s : Finset Nat) :
    s ⊆ closureStep comp s :=
  Finset.subset_union_left

/-- Iterating the closure step keeps the seed. -/
theorem subset_iterate_closureStep (comp : Nat → Finset Nat) (s : Finset Nat) :
    ∀ n, s ⊆ (closureStep comp)^[n] s := by
  intro n
  induction n with
  | zero => exact fun x hx => hx
  | succ n ih =>
    rw [Function.iterate_succ_apply']
    exact ih.trans (subset_closureStep comp _)

/-- Iterating the closure step stays below the glyph count. -/
theorem iterate_closureStep_range (comp : Nat → Finset Nat) (N : Nat)
    (s : Finset Nat) (hs : s ⊆ Finset.range N)
    (hcomp : ∀ g, comp g ⊆ Finset.range N) :
    ∀ n, (closureStep comp)^[n] s ⊆ Finset.range N := by
  intro n
  induction n with
  | zero => exact hs
  | succ n ih =>
    rw [Function.iterate_succ_apply']
    unfold closureStep
    apply Finset.union_subset ih
    intro x hx
    rcases Finset.mem_biUnion.mp hx with ⟨g, _, hgx⟩
    exact hcomp g hgx

/-- Within the first `N` iterations the closure step reaches a fixed
point: otherwise the set would grow past the `N` available glyph
ids. -/
theorem closureStep_fix_exists (comp : Nat → Finset Nat) (N : Nat)
    (s : Finset Nat) (hs : s ⊆ Finset.range N)
    (hcomp : ∀ g, comp g ⊆ Finset.range N) :
    ∃ k ≤ N, closureStep comp ((closureStep comp)^[k] s) = (closureStep comp)^[k] s := by
  by_contra hcon
  push_neg at hcon
  have hgrow : ∀ k, k ≤ N + 1 → k ≤ ((closureStep comp)^[k] s).card := by
    intro k
    induction k with
    | zero => exact fun _ => Nat.zero_le _
    | succ k ihk =>
      intro hk
      have h1 : (closureStep comp)^[k] s ⊂ (closureStep comp)^[k+1] s := by
        rw [Function.iterate_succ_apply']
        refine (subset_closureStep comp _).ssubset_of_ne ?_
        exact fun he => hcon k (by omega) he.symm
      have h2 := Finset.card_lt_card h1
      have h3 := ihk (by omega)
      omega
  have h4 := hgrow (N + 1) (le_refl _)
  have h5 : ((closureStep comp)^[N+1] s).card ≤ N := by
    have := Finset.card_le_card (iterate_closureStep_range comp N s hs hcomp (N + 1))
    simpa [Finset.card_range] using this
  omega

/-- The computed closure is a fixed point of the closure step. -/
theorem closureStep_closeGlyphs (comp : Nat → Finset Nat) (N : Nat)
    (seed : Finset Nat) (hs : seed ⊆ Finset.range N)
    (hcomp : ∀ g, comp g ⊆ Finset.range N) :
    closureStep comp (closeGlyphs comp N seed) = closeGlyphs comp N seed := by
  obtain ⟨k, hk, hfix⟩ := closureStep_fix_exists comp N seed hs hcomp
  have hstable : closeGlyphs comp N seed = (closureStep comp)^[k] seed := by
    unfold closeGlyphs
    have hsplit : N + 1 = (N + 1 - k) + k := by omega
    rw [hsplit, Function.iterate_add_apply]
    exact Function.iterate_fixed hfix _
  rw [hstable]
  exact hfix

/-- A one-unit string decodes to its single unit (a lone surrogate is
passed through). -/
theorem extractCodePoints_singleton {u : Nat} (hu : u < 0x10000) :
    extractCodePoints [u] = [u] := by
  rw [extractCodePoints,
    extractLoop_eq_debug [u] (by simpa using hu) _ 0 (by simp),
    List.drop_zero]
  by_cases hs : 0xD800 ≤ u ∧ u < 0xDC00
  · exact debugEmojiCodePoints_single_hs hs
  · rw [debugEmojiCodePoints_cons_low hs]
    rfl

/-! ## Claim theorems -/

/-- C2 (counterexample): the claim fails as stated for the v2 route's
decoder: the two-character string "a\x00" (units 97, 0) contains two
Unicode characters, but the v2 extraction loop yields only one scalar
value — the `if (cp)` guard drops U+0000. -/
theorem extractCodePointsV2_drops_nul :
    extractCodePointsV2 [97, 0] = [97] ∧
      debugEmojiCodePoints [97, 0] = [97, 0] := by
  exact ⟨by decide, by decide⟩

/-- C2 (amended): for every sequence of Unicode scalar values, the
worker's decoder yields exactly those scalar values, one per
character, from the UTF-16 encoded string — a single-scalar emoji
yields one element, a surrogate-pair character yields one element, a
two-scalar cluster yields two elements in source order; the v2 route's
decoder does the same provided no scalar value is U+0000. -/
theorem decoder_one_scalar_per_char (cps : List Nat)
    (h : ∀ cp ∈ cps, IsScalarValue cp) :
    extractCodePoints (utf16Encode cps) = cps ∧
      (0 ∉ cps → extractCodePointsV2 (utf16Encode cps) = cps) := by
  refine ⟨extractCodePoints_utf16 h, fun h0 => ?_⟩
  rw [extractCodePointsV2,
    extractLoopV2_eq_extractLoop _ (utf16Encode_units_ne_zero h0) _ 0]
  exact extractCodePoints_utf16 h

/-- Witness for C2's theorem: the two-regional-indicator flag sequence
U+1F1F0 U+1F1F7 (four UTF-16 units) decodes to exactly two scalar
values in source order, in both decoders. -/
theorem decoder_one_scalar_per_char_witness :
    extractCodePointsV2 (utf16Encode [0x1F1F0, 0x1F1F7]) = [0x1F1F0, 0x1F1F7] :=
  (decoder_one_scalar_per_char [0x1F1F0, 0x1F1F7] (by decide)).2 (by decide)

/-- C10 (counterexample): on the one-character string "\x00" the two
extraction implementations of the v2 route disagree: `debugEmoji`'s
iterator-based decoding yields the scalar value 0, while the manual
`codePointAt` loop yields the empty sequence. -/
theorem debugEmoji_v2_extraction_disagree_on_nul :
    debugEmojiCodePoints [0] = [0] ∧ extractCodePointsV2 [0] = [] := by
  exact ⟨by decide, by decide⟩

/-- C10 (amended): on every string of 16-bit units that contains no
U+0000 unit — including strings containing lone surrogates — the
scalar-value sequence underlying `debugEmoji`'s `Array.from`-based
iteration equals the list produced by `getGlyphIdsForEmoji`'s manual
`codePointAt` loop of the v2 route. -/
theorem debugEmoji_v2_extraction_agree_no_nul (units : List Nat)
    (hu : ∀ u ∈ units, u < 0x10000) (h0 : ∀ u ∈ units, u ≠ 0) :
    debugEmojiCodePoints units = extractCodePointsV2 units := by
  rw [extractCodePointsV2, extractLoopV2_eq_extractLoop units h0,
    extractLoop_eq_debug units hu units.length 0 (by omega), List.drop_zero]

/-- Witness for C10's theorem: a string containing a lone high
surrogate followed by an ordinary character. -/
theorem debugEmoji_v2_extraction_agree_no_nul_witness :
    debugEmojiCodePoints [0xD83D, 65] = extractCodePointsV2 [0xD83D, 65] :=
  debugEmoji_v2_extraction_agree_no_nul [0xD83D, 65] (by decide) (by decide)

/-- C5 (counterexample): a string consisting of a single unpaired high
surrogate is not rejected: the route guard accepts it and the decoding
stage succeeds, passing the surrogate value through as a code point
instead of failing with InvalidInput. -/
theorem lone_surrogate_not_rejected :
    postValidateEmoji [0xD83D] = Except.ok () ∧
      extractCodePoints [0xD83D] = [0xD83D] := by
  exact ⟨rfl, by decide⟩

/-- C5 (amended): the `if (!emoji)` guard rejects exactly the empty
string (with the "Emoji is required" error, the code's InvalidInput);
strings containing unpaired or invalid surrogate units are not
rejected — a lone surrogate unit is decoded through unchanged. -/
theorem postValidateEmoji_rejects_only_empty (units : List Nat) :
    (postValidateEmoji units = Except.error RouteError.emojiRequired ↔ units = []) ∧
    (∀ u, 0xD800 ≤ u → u < 0xE000 → extractCodePoints [u] = [u]) := by
  constructor
  · unfold postValidateEmoji
    split
    · rename_i he
      simp [he]
    · rename_i he
      simp [he]
  · intro u h1 h2
    exact extractCodePoints_singleton (by omega)

/-- Witness for C5's theorem: the empty string is rejected and a lone
low surrogate decodes through unchanged. -/
theorem postValidateEmoji_rejects_only_empty_witness :
    extractCodePoints [0xDE00] = [0xDE00] :=
  (postValidateEmoji_rejects_only_empty [0xDE00]).2 0xDE00 (by decide) (by decide)

/-- C1 (counterexample): against a font resolving no glyph at all
(every cmap lookup and every shaping call throws), the worker
processes the emoji U+1F600: the resolved glyph set is empty, yet no
NoGlyphsResolved failure occurs — the subsetter is invoked with the
empty glyph list, the transcoder runs on its output, an output binary
is produced, and the worker exits 0. -/
theorem processEmoji_empty_glyphs_still_produces_output :
    (processEmoji emptyFontToolchain ⟨0, false⟩ [1, 2, 3] [0xD83D, 0xDE00]).glyphIds = [] ∧
    (processEmoji emptyFontToolchain ⟨0, false⟩ [1, 2, 3] [0xD83D, 0xDE00]).woff2 =
      emptyFontToolchain.compress (emptyFontToolchain.subsetWrite [1, 2, 3] []) ∧
    (processEmoji emptyFontToolchain ⟨0, false⟩ [1, 2, 3] [0xD83D, 0xDE00]).exitCode = 0 := by
  exact ⟨rfl, rfl, rfl⟩

/-- C1 (amended): when the resolved glyph set is empty the pipeline
does not fail — no NoGlyphsResolved check exists: the worker proceeds
to subset the font with the empty glyph-id list, transcodes the
result, and exits successfully with that binary as its output. -/
theorem processEmoji_no_noGlyphsResolved_check (tc : Toolchain) (env : Env)
    (fontData units : List Nat)
    (h : (getGlyphIdsForEmoji (tc.parse fontData) units).glyphIds = []) :
    (processEmoji tc env fontData units).woff2 =
      tc.compress (tc.subsetWrite fontData []) ∧
    (processEmoji tc env fontData units).exitCode = 0 := by
  constructor
  · simp only [processEmoji, h]
  · rfl

/-- Witness for C1's theorem: the empty-font toolchain at a different
clock and environment. -/
theorem processEmoji_no_noGlyphsResolved_check_witness :
    (processEmoji emptyFontToolchain ⟨7, true⟩ [9] [0xD83D, 0xDE00]).woff2 =
      emptyFontToolchain.compress (emptyFontToolchain.subsetWrite [9] []) ∧
    (processEmoji emptyFontToolchain ⟨7, true⟩ [9] [0xD83D, 0xDE00]).exitCode = 0 :=
  processEmoji_no_noGlyphsResolved_check emptyFontToolchain ⟨7, true⟩ [9]
    [0xD83D, 0xDE00] (by decide)

/-- C4 (confirmed): the subset + WOFF2-compression stage is
deterministic.  With the external library stages modelled as pure
functions of their inputs, the produced binary depends only on the
font bytes and the emoji string: it is invariant under the ambient
environment (`Date.now()` clock, NODE_ENV), which only names temporary
debug files, so two runs on the same input yield byte-identical
output — in both the v2 route's in-process pipeline and the worker
script. -/
theorem subset_pipeline_deterministic (tc : Toolchain) (env1 env2 : Env)
    (fontData units : List Nat) :
    (createEmojiSubset tc env1 fontData units).base64 =
      (createEmojiSubset tc env2 fontData units).base64 ∧
    (processEmoji tc env1 fontData units).woff2 =
      (processEmoji tc env2 fontData units).woff2 := by
  exact ⟨rfl, rfl⟩

/-- C7 (confirmed): a per-code-point cmap miss is recoverable: the
resolver records a GlyphNotFound warning for the missing code point
and skips it; resolution is not aborted — a successful joined-sequence
shaping lookup still contributes its glyphs to the glyph list, and the
pipeline still proceeds to subsetting and transcoding with the
resolved list. -/
theorem glyphNotFound_warning_recoverable (font : FontDocument)
    (units : List Nat) (cp : Nat)
    (hmem : cp ∈ (getGlyphIdsForEmoji font units).codePoints)
    (hmiss : font.cmap cp = none) :
    Warning.glyphNotFound cp ∈ (getGlyphIdsForEmoji font units).warnings ∧
    (∀ gs g, 1 < (extractCodePoints units).length →
      font.layout (extractCodePoints units) = some gs → g ∈ gs →
      g ∈ (getGlyphIdsForEmoji font units).glyphIds) ∧
    (∀ tc env fontData, tc.parse fontData = font →
      (processEmoji tc env fontData units).woff2 =
        tc.compress (tc.subsetWrite fontData
          (getGlyphIdsForEmoji font units).glyphIds)) := by
  have hmem2 : cp ∈ extractCodePoints units := hmem
  refine ⟨getGlyphIdsFrom_warn_of_miss font _ cp hmem2 hmiss, ?_, ?_⟩
  · intro gs g hlen hl hg
    exact getGlyphIdsFrom_layout_mem font _ hlen hl hg
  · intro tc env fontData hparse
    simp only [processEmoji, hparse]

/-- Witness for C7's theorem: a two-character string against a font
with an empty cmap but working shaping: the miss on code point 65 is
warned about and the layout glyph still lands in the glyph list. -/
theorem glyphNotFound_warning_recoverable_witness :
    Warning.glyphNotFound 65 ∈ (getGlyphIdsForEmoji layoutOnlyFont [65, 66]).warnings :=
  (glyphNotFound_warning_recoverable layoutOnlyFont [65, 66] 65 (by decide) rfl).1

/-- C8 (confirmed): the glyph-id list returned by resolution contains
no duplicates (both the worker's and the v2 route's variant), and its
order is a deterministic function of the input: in particular it is
invariant under the ambient environment, the only input the pipeline
reads besides the font bytes and the emoji string. -/
theorem glyphIds_nodup_deterministic (font : FontDocument) (tc : Toolchain)
    (env1 env2 : Env) (fontData units : List Nat) :
    ((getGlyphIdsForEmoji font units).glyphIds).Nodup ∧
    ((getGlyphIdsForEmojiV2 font units).glyphIds).Nodup ∧
    (createEmojiSubset tc env1 fontData units).glyphIds =
      (createEmojiSubset tc env2 fontData units).glyphIds := by
  exact ⟨getGlyphIdsFrom_nodup font _, getGlyphIdsFrom_nodup font _, rfl⟩

/-- C9 (confirmed): the route's validation of the worker output: a
returned asset always has at least four bytes and carries the WOFF2
signature 'wOF2' (hex 774f4632) and is exactly the worker's produced
binary; a produced file shorter than four bytes or lacking the
signature is rejected with an error rather than returned. -/
theorem runWorkerScript_signature_validated (tc : Toolchain) (env : Env)
    (fontData units : List Nat) :
    (∀ asset, runWorkerScript tc env fontData units = Except.ok asset →
      4 ≤ asset.length ∧ asset.take 4 = woff2Signature ∧
        asset = (processEmoji tc env fontData units).woff2) ∧
    ((processEmoji tc env fontData units).woff2.length < 4 ∨
        (processEmoji tc env fontData units).woff2.take 4 ≠ woff2Signature →
      ∃ e, runWorkerScript tc env fontData units = Except.error e) := by
  constructor
  · intro asset h
    unfold runWorkerScript at h
    split at h
    · cases h
    · split at h
      · cases h
      · split at h
        · rename_i hexit hlen hsig
          injection h with h
          subst h
          exact ⟨by omega, hsig, rfl⟩
        · cases h
  · intro hbad
    unfold runWorkerScript
    split
    · exact ⟨_, rfl⟩
    · split
      · exact ⟨_, rfl⟩
      · split
        · rename_i hexit hlen hsig
          exfalso
          rcases hbad with hb | hb
          · exact hlen hb
          · exact hb hsig
        · exact ⟨_, rfl⟩

/-- Witness for C9's theorem: a toolchain producing a five-byte file
with a valid signature: the asset returned on success passes the
signature check. -/
theorem runWorkerScript_signature_validated_witness :
    4 ≤ [0x77, 0x4f, 0x46, 0x32, 0x09].length ∧
    [0x77, 0x4f, 0x46, 0x32, 0x09].take 4 = woff2Signature ∧
    [0x77, 0x4f, 0x46, 0x32, 0x09] =
      (processEmoji validSigToolchain ⟨0, false⟩ [] [65]).woff2 :=
  (runWorkerScript_signature_validated validSigToolchain ⟨0, false⟩ [] [65]).1
    [0x77, 0x4f, 0x46, 0x32, 0x09] rfl

/-- C3 (confirmed): for every seed glyph set produced by direct
resolution, the closed glyph set handed to the subsetter is a superset
of the seed and is closed under glyph-to-glyph component references:
no glyph in it references a component glyph outside it.  `N` bounds
the font's glyph ids (glyph count); both resolution lookups and the
component references are assumed to stay below it. -/
theorem closeGlyphs_superset_and_closed (font : FontDocument)
    (comp : Nat → Finset Nat) (N : Nat) (units : List Nat)
    (hcmap : ∀ cp g, font.cmap cp = some g → g < N)
    (hlay : ∀ cs gs, font.layout cs = some gs → ∀ g ∈ gs, g < N)
    (hcomp : ∀ g, comp g ⊆ Finset.range N) :
    ((getGlyphIdsForEmoji font units).glyphIds).toFinset ⊆
      closeGlyphs comp N ((getGlyphIdsForEmoji font units).glyphIds).toFinset ∧
    ∀ g ∈ closeGlyphs comp N ((getGlyphIdsForEmoji font units).glyphIds).toFinset,
      comp g ⊆
        closeGlyphs comp N ((getGlyphIdsForEmoji font units).glyphIds).toFinset := by
  have hs : ((getGlyphIdsForEmoji font units).glyphIds).toFinset ⊆ Finset.range N := by
    intro g hg
    rw [List.mem_toFinset] at hg
    exact Finset.mem_range.mpr (getGlyphIdsFrom_bound font N _ hcmap hlay g hg)
  constructor
  · exact subset_iterate_closureStep comp _ (N + 1)
  · intro g hg x hx
    have hfix := closureStep_closeGlyphs comp N
      ((getGlyphIdsForEmoji font units).glyphIds).toFinset hs hcomp
    rw [← hfix]
    unfold closureStep
    exact Finset.mem_union_right _ (Finset.mem_biUnion.mpr ⟨g, hg, hx⟩)

/-- Witness for C3's theorem: the smiley font (U+1F600 maps to glyph
1) with glyph 1 a composite referencing glyph 2, glyph count 3. -/
theorem closeGlyphs_superset_and_closed_witness :
    ((getGlyphIdsForEmoji smileyFont [0xD83D, 0xDE00]).glyphIds).toFinset ⊆
      closeGlyphs witnessComponents 3
        ((getGlyphIdsForEmoji smileyFont [0xD83D, 0xDE00]).glyphIds).toFinset :=
  (closeGlyphs_superset_and_closed smileyFont witnessComponents 3 [0xD83D, 0xDE00]
    (fun cp g h => by
      by_cases hcp : cp = 0x1F600
      · simp [smileyFont, hcp] at h
        omega
      · simp [smileyFont, hcp] at h)
    (fun cs gs h => by simp [smileyFont] at h)
    (fun g => by
      unfold witnessComponents
      split <;> decide)).1

/-- C6 (confirmed): behavior of the result cache (modelled from the
spec, see `LRUCache`): after `set` of a fresh key into a full cache at
a live clock, `get` of that key returns the stored asset; the entry
count never exceeds the configured maximum; inserting a
capacity-plus-first distinct key evicts exactly the least-recently-used
entry; a stale entry (age beyond the ttl) is reported as a miss no
matter when or how often it is accessed, because a hit never refreshes
the stored timestamp; and the route's cache is configured with
capacity 5 and a 6-hour ttl. -/
theorem resultCache_lru_ttl_behavior {K V : Type} [DecidableEq K]
    (c : LRUCache K V) (k : K) (v : V) (t now : Nat)
    (hmax : 0 < c.max)
    (hfresh : ∀ e ∈ c.entries, e.1 ≠ k)
    (hfull : c.entries.length = c.max)
    (hlive : now - t ≤ c.ttl) :
    (((c.set k v t).get k now).1 = some v) ∧
    ((c.set k v t).entries.length ≤ c.max) ∧
    ((c.set k v t).entries = (k, v, t) :: c.entries.dropLast) ∧
    (∀ (c2 : LRUCache K V) (k2 : K) (v2 : V) (s now2 : Nat),
      c2.entries.find? (fun e => decide (e.1 = k2)) = some (k2, v2, s) →
      c2.ttl < now2 - s → (c2.get k2 now2).1 = none) ∧
    (∀ (c2 : LRUCache K V) (k2 : K) (v2 : V) (s now2 : Nat),
      c2.entries.find? (fun e => decide (e.1 = k2)) = some (k2, v2, s) →
      now2 - s ≤ c2.ttl →
      (c2.get k2 now2).1 = some v2 ∧
        ((c2.get k2 now2).2).entries.find? (fun e => decide (e.1 = k2)) =
          some (k2, v2, s)) ∧
    emojiSubsetCache.max = 5 ∧ emojiSubsetCache.ttl = 21600000 := by
  have hfilter : c.entries.filter (fun e => decide (e.1 ≠ k)) = c.entries :=
    List.filter_eq_self.mpr (fun a ha => decide_eq_true (hfresh a ha))
  obtain ⟨m, hm⟩ : ∃ m, c.max = m + 1 := ⟨c.max - 1, by omega⟩
  have hset : (c.set k v t).entries = (k, v, t) :: c.entries.dropLast := by
    simp only [LRUCache.set, hfilter, hm, List.take_succ_cons]
    rw [List.dropLast_eq_take, hfull, hm]
    simp
  refine ⟨?_, ?_, hset, ?_, ?_, rfl, rfl⟩
  · have hfind0 : ((c.set k v t).entries).find? (fun e => decide (e.1 = k)) =
        some (k, v, t) := by
      rw [hset]
      exact List.find?_cons_of_pos _ (by simp)
    simp only [LRUCache.get, hfind0]
    rw [if_neg (by simp only [LRUCache.set]; omega)]
  · simp only [LRUCache.set]
    rw [List.length_take]
    omega
  · intro c2 k2 v2 s now2 hfind hstale
    simp only [LRUCache.get, hfind]
    rw [if_pos hstale]
  · intro c2 k2 v2 s now2 hfind hlive2
    simp only [LRUCache.get, hfind]
    rw [if_neg (by omega)]
    constructor
    · rfl
    · exact List.find?_cons_of_pos _ (by simp)

/-- Witness for C6's theorem: a full two-entry cache with ttl 10;
putting the fresh key 0 at time 6 and getting it at time 8 returns the
stored value. -/
theorem resultCache_lru_ttl_behavior_witness :
    ((((⟨2, 10, [(1, 100, 5), (2, 200, 3)]⟩ : LRUCache Nat Nat).set 0 7 6).get 0 8).1
      = some 7) :=
  (resultCache_lru_ttl_behavior ⟨2, 10, [(1, 100, 5), (2, 200, 3)]⟩ 0 7 6 8
    (by decide) (by decide) (by decide) (by decide)).1

end EmojiSvc
